import Mathlib

set_option linter.unusedVariables false
set_option linter.unnecessarySimpa false

/-!
Verification of the Codebase Genius structural analyzer.

This file is a shallow embedding of the code analysis core of the repository:

* `Codebase_genius/agents/code_analyzer.py` — the `CodeAnalyzer` class that
  builds a Code Context Graph (CCG) from per-file parses, with a
  tree-sitter-based strategy and a regex-based fallback strategy; and
* `Codebase_genius/utils/language_detector.py` — the `LanguageDetector`
  class that classifies files by extension and content patterns.

Modelling conventions:

* Python dicts are association lists in insertion order; assignment to an
  existing key overwrites in place, a new key is appended at the end.
* Tree-sitter `Node` objects are modelled by the inductive `Node`; a node
  carries its own source slice (`Node.text` stands for
  `content[node.start_byte:node.end_byte]`, which is all the source ever
  reads from `content` through a node).
* The Python `re` module is an oracle: a function from pattern and content
  to a match list (`re.finditer`) or a Bool (`re.search`).  The facts proved
  below do not depend on the regex engine's behaviour.
* Fallible operations (file reads, `parser.parse`) are `Except` values
  threaded in as data, so a "raised exception" is an explicit `.error`.
* Machine floats (`confidence`) are modelled as rationals.
-/

/-! ### Character and string helpers

Kernel-evaluable models of the Python string operations the source uses.
All strings involved are ASCII. -/

/-- ASCII model of `str.lower` on one character. -/
def lowerChar (c : Char) : Char :=
  if ('A' ≤ c && c ≤ 'Z') then Char.ofNat (c.toNat + 32) else c

/-- ASCII model of `str.lower`. -/
def strLower (s : String) : String := ⟨s.data.map lowerChar⟩

/-- Python substring test `pat in s` over character lists. -/
def subOccursL (pat : List Char) : List Char → Bool
  | [] => pat.isEmpty
  | c :: rest => pat.isPrefixOf (c :: rest) || subOccursL pat rest

/-- Python substring test `pat in s` on strings. -/
def strContainsSub (s pat : String) : Bool := subOccursL pat.data s.data

/-- Characters of a path after the last slash: models `pathlib.PurePath.name`
for the relative file paths the crawler produces. -/
def lastComponent (l : List Char) : List Char :=
  l.foldl (fun acc c => if c == '/' then [] else acc ++ [c]) []

/-- Index of the last occurrence of `c` in `l`: models `str.rfind` (with
`none` for Python's `-1`). -/
def rfindChar (c : Char) (l : List Char) : Option Nat :=
  (List.range l.length).foldl (fun acc i => if l.getD i ' ' == c then some i else acc) none

/-- Models `pathlib.PurePath.suffix`: the extension of the final path
component, dot included; empty when the name has no dot past its first
character or the dot is last. -/
def pathSuffix (p : String) : String :=
  let name := lastComponent p.data
  match rfindChar '.' name with
  | some i => if 0 < i ∧ i < name.length - 1 then ⟨name.drop i⟩ else ""
  | none => ""

/-- Number of newline characters among the first `k` characters of
`content`: models `content[:k].count(chr(10))`. -/
def countNlBefore (content : String) (k : Nat) : Nat :=
  ((content.data.take k).filter (fun c => c == '\n')).length

/-- Models `pos - content.rfind(chr(10), 0, start) - 1`, the column
computation of the regex strategies (`rfind` returns `-1` when no newline
precedes, making the column `pos` itself). -/
def columnFrom (content : String) (start pos : Nat) : Nat :=
  match rfindChar '\n' (content.data.take start) with
  | some i => pos - i - 1
  | none => pos

/-! ### The element and relationship data model (`code_analyzer.py`) -/

/-- The `CodeElement` dataclass.  The `type` field keeps its source name;
fields the analyzed parsers never set keep their `None` defaults. -/
structure CodeElement where
  name : String
  type : String
  file_path : String
  line_start : Nat
  line_end : Nat
  column_start : Nat
  column_end : Nat
  docstring : Option String := none
  parameters : Option (List String) := none
  return_type : Option String := none
  parent : Option String := none
  children : Option (List String) := none
deriving Repr, DecidableEq

/-- A relationship triple `(from_id, to_id, relationship_type)`. -/
abbrev RelTriple := String × String × String

/-- The `elements` dict: an association list in Python dict insertion
order. -/
abbrev Elements := List (String × CodeElement)

/-- Python dict assignment `m[k] = v`: overwrite in place when the key
exists, append otherwise. -/
def insertEl (m : Elements) (k : String) (v : CodeElement) : Elements :=
  if m.any (fun p => p.1 == k) then
    m.map (fun p => if p.1 == k then (k, v) else p)
  else m ++ [(k, v)]

/-- The key list of an elements dict. -/
def keysOf (m : Elements) : List String := m.map Prod.fst

/-- The mutable `(elements, relationships)` accumulator threaded through
the AST traversals. -/
abbrev St := Elements × List RelTriple

/-! ### Tree-sitter syntax trees -/

/-- A tree-sitter parse tree node: its `type`, its source slice
(`content[start_byte:end_byte]`), its `start_point`/`end_point` rows and
columns, and its children. -/
inductive Node where
  | node (ntype : String) (text : String)
      (startRow startCol endRow endCol : Nat) (children : List Node)
deriving Repr

def Node.ntype : Node → String
  | .node t _ _ _ _ _ _ => t

def Node.text : Node → String
  | .node _ tx _ _ _ _ _ => tx

def Node.children : Node → List Node
  | .node _ _ _ _ _ _ cs => cs

/-- `_get_node_text`: the source slice of the first child of the given
type, if any.  The source slice `content[child.start_byte:child.end_byte]`
is the child's `Node.text`. -/
def get_node_text (children : List Node) (childType : String) : Option String :=
  (children.find? (fun c => c.ntype == childType)).map Node.text

/-- `_get_import_name`: the source slice of the first `dotted_name`
child, if any. -/
def get_import_name (children : List Node) : Option String :=
  (children.find? (fun c => c.ntype == "dotted_name")).map Node.text

/-- Models `if parent: relationships.append((parent, element_id,
'contains'))` — Python truthiness: `None` and the empty string are both
falsy. -/
def appendContains (rels : List RelTriple) (parent : Option String) (elementId : String) : List RelTriple :=
  match parent with
  | some p => if p != "" then rels ++ [(p, elementId, "contains")] else rels
  | none => rels

/-! ### `_parse_python_ast` — the tree-sitter Python traversal

`traverse_node` threads the `elements`/`relationships` accumulators through
a depth-first walk.  The class branch first walks the grandchildren of
`block` children with the class id as parent, and then — like every node —
falls through to the generic walk of all children with the original parent
(so nodes under a class body are visited twice, once per parent). -/

mutual

/-- `traverse_node(node, parent)` of `_parse_python_ast`. -/
def py_traverse_node (filePath : String) : Node → Option String → St → St
  | .node ntype _ startRow startCol endRow endCol children, parent, st =>
    let st1 : St :=
      if ntype == "function_definition" then
        match get_node_text children "identifier" with
        | some name =>
          if name != "" then
            let elementId := filePath ++ ":" ++ name
            (insertEl st.1 elementId
              { name := name, type := "function", file_path := filePath,
                line_start := startRow + 1, line_end := endRow + 1,
                column_start := startCol, column_end := endCol,
                parent := parent },
             appendContains st.2 parent elementId)
            -- `_find_function_calls` is a `pass` stub: no further effect.
          else st
        | none => st
      else if ntype == "class_definition" then
        match get_node_text children "identifier" with
        | some name =>
          if name != "" then
            let elementId := filePath ++ ":" ++ name
            let st2 : St :=
              (insertEl st.1 elementId
                { name := name, type := "class", file_path := filePath,
                  line_start := startRow + 1, line_end := endRow + 1,
                  column_start := startCol, column_end := endCol,
                  parent := parent },
               appendContains st.2 parent elementId)
            py_traverse_blocks filePath children (some elementId) st2
          else st
        | none => st
      else if ntype == "import_statement" then
        match get_import_name children with
        | some moduleName =>
          if moduleName != "" then
            (insertEl st.1 (filePath ++ ":import:" ++ moduleName)
              { name := moduleName, type := "import", file_path := filePath,
                line_start := startRow + 1, line_end := endRow + 1,
                column_start := startCol, column_end := endCol },
             st.2)
          else st
        | none => st
      else st
    py_traverse_list filePath children parent st1

/-- The class branch's inner loop: for each `block` child, traverse its
children with the class element id as parent. -/
def py_traverse_blocks (filePath : String) : List Node → Option String → St → St
  | [], _, st => st
  | .node ntype _ _ _ _ _ grandchildren :: rest, parent, st =>
    let st1 := if ntype == "block" then py_traverse_list filePath grandchildren parent st else st
    py_traverse_blocks filePath rest parent st1

/-- The trailing `for child in node.children: traverse_node(child, parent)`
loop run for every node. -/
def py_traverse_list (filePath : String) : List Node → Option String → St → St
  | [], _, st => st
  | c :: cs, parent, st => py_traverse_list filePath cs parent (py_traverse_node filePath c parent st)

end

/-- `_parse_python_ast(root_node, file_path, content)`.  The `content`
argument is only read through node slices, which the `Node` model carries. -/
def parse_python_ast (rootNode : Node) (filePath : String) : St :=
  py_traverse_node filePath rootNode none ([], [])

/-! ### `_parse_javascript_ast` — the tree-sitter JavaScript traversal -/

mutual

/-- `traverse_node(node, parent)` of `_parse_javascript_ast`. -/
def js_traverse_node (filePath : String) : Node → Option String → St → St
  | .node ntype _ startRow startCol endRow endCol children, parent, st =>
    let st1 : St :=
      if ntype == "function_declaration" then
        match get_node_text children "identifier" with
        | some name =>
          if name != "" then
            let elementId := filePath ++ ":" ++ name
            (insertEl st.1 elementId
              { name := name, type := "function", file_path := filePath,
                line_start := startRow + 1, line_end := endRow + 1,
                column_start := startCol, column_end := endCol,
                parent := parent },
             appendContains st.2 parent elementId)
          else st
        | none => st
      else if ntype == "class_declaration" then
        match get_node_text children "identifier" with
        | some name =>
          if name != "" then
            let elementId := filePath ++ ":" ++ name
            (insertEl st.1 elementId
              { name := name, type := "class", file_path := filePath,
                line_start := startRow + 1, line_end := endRow + 1,
                column_start := startCol, column_end := endCol,
                parent := parent },
             appendContains st.2 parent elementId)
          else st
        | none => st
      else st
    js_traverse_list filePath children parent st1

/-- The trailing generic child walk of `_parse_javascript_ast`. -/
def js_traverse_list (filePath : String) : List Node → Option String → St → St
  | [], _, st => st
  | c :: cs, parent, st => js_traverse_list filePath cs parent (js_traverse_node filePath c parent st)

end

/-- `_parse_javascript_ast(root_node, file_path, content)`. -/
def parse_javascript_ast (rootNode : Node) (filePath : String) : St :=
  js_traverse_node filePath rootNode none ([], [])

/-! ### `_parse_java_ast` — the tree-sitter Java traversal -/

mutual

/-- `traverse_node(node, parent)` of `_parse_java_ast`. -/
def java_traverse_node (filePath : String) : Node → Option String → St → St
  | .node ntype _ startRow startCol endRow endCol children, parent, st =>
    let st1 : St :=
      if ntype == "method_declaration" then
        match get_node_text children "identifier" with
        | some name =>
          if name != "" then
            let elementId := filePath ++ ":" ++ name
            (insertEl st.1 elementId
              { name := name, type := "function", file_path := filePath,
                line_start := startRow + 1, line_end := endRow + 1,
                column_start := startCol, column_end := endCol,
                parent := parent },
             appendContains st.2 parent elementId)
          else st
        | none => st
      else if ntype == "class_declaration" then
        match get_node_text children "identifier" with
        | some name =>
          if name != "" then
            let elementId := filePath ++ ":" ++ name
            let st2 : St :=
              (insertEl st.1 elementId
                { name := name, type := "class", file_path := filePath,
                  line_start := startRow + 1, line_end := endRow + 1,
                  column_start := startCol, column_end := endCol,
                  parent := parent },
               appendContains st.2 parent elementId)
            java_traverse_blocks filePath children (some elementId) st2
          else st
        | none => st
      else st
    java_traverse_list filePath children parent st1

/-- The class branch's inner loop of `_parse_java_ast`: for each
`class_body` child, traverse its children with the class id as parent. -/
def java_traverse_blocks (filePath : String) : List Node → Option String → St → St
  | [], _, st => st
  | .node ntype _ _ _ _ _ grandchildren :: rest, parent, st =>
    let st1 := if ntype == "class_body" then java_traverse_list filePath grandchildren parent st else st
    java_traverse_blocks filePath rest parent st1

/-- The trailing generic child walk of `_parse_java_ast`. -/
def java_traverse_list (filePath : String) : List Node → Option String → St → St
  | [], _, st => st
  | c :: cs, parent, st => java_traverse_list filePath cs parent (java_traverse_node filePath c parent st)

end

/-- `_parse_java_ast(root_node, file_path, content)`. -/
def parse_java_ast (rootNode : Node) (filePath : String) : St :=
  java_traverse_node filePath rootNode none ([], [])

/-! ### The regex fallback strategies

`re.finditer(pattern, content, re.MULTILINE)` is modelled by an oracle
`ReEngine`; a match contributes its `group(1)` text and its `start()` and
`end()` offsets.  Every regex strategy only builds elements — none ever
appends a relationship. -/

/-- One `re.Match`: the text of capture group 1, `match.start()` and
`match.end()`. -/
structure ReMatch where
  group1 : String
  start : Nat
  stop : Nat
deriving Repr, DecidableEq

/-- The `re.finditer` oracle: pattern and content to the match list. -/
abbrev ReEngine := String → String → List ReMatch

def py_func_pattern : String := "^def\\s+(\\w+)\\s*\\([^)]*\\):"

def py_class_pattern : String := "^class\\s+(\\w+)(?:\\([^)]*\\))?:"

def js_func_patterns : List String :=
  ["function\\s+(\\w+)\\s*\\(",
   "const\\s+(\\w+)\\s*=\\s*(?:async\\s+)?\\([^)]*\\)\\s*=>",
   "let\\s+(\\w+)\\s*=\\s*(?:async\\s+)?\\([^)]*\\)\\s*=>",
   "var\\s+(\\w+)\\s*=\\s*(?:async\\s+)?\\([^)]*\\)\\s*=>"]

def js_class_pattern : String := "class\\s+(\\w+)(?:\\s+extends\\s+\\w+)?\\s*\x7b"

def java_method_pattern : String :=
  "(?:public|private|protected)?\\s*(?:static\\s+)?(?:final\\s+)?(?:\\w+\\s+)*(\\w+)\\s*\\([^)]*\\)\\s*\x7b"

def java_class_pattern : String :=
  "(?:public\\s+)?class\\s+(\\w+)(?:\\s+extends\\s+\\w+)?(?:\\s+implements\\s+[^\x7b]+)?\\s*\x7b"

/-- One iteration of a regex-strategy match loop: build the element from the
match and assign it under `{file_path}:{name}`. -/
def regexInsert (etype : String) (content filePath : String) (m : Elements) (mt : ReMatch) : Elements :=
  let name := mt.group1
  let lineNum := countNlBefore content mt.start + 1
  insertEl m (filePath ++ ":" ++ name)
    { name := name, type := etype, file_path := filePath,
      line_start := lineNum, line_end := lineNum,
      column_start := columnFrom content mt.start mt.start,
      column_end := columnFrom content mt.start mt.stop }

/-- `_regex_parse_python(content, file_path, lines)`: the function and class
match loops; no relationship is ever appended. -/
def regex_parse_python (re : ReEngine) (content filePath : String) : St :=
  let els : Elements := (re py_func_pattern content).foldl (regexInsert "function" content filePath) []
  let els := (re py_class_pattern content).foldl (regexInsert "class" content filePath) els
  (els, [])

/-- `_regex_parse_javascript(content, file_path, lines)`. -/
def regex_parse_javascript (re : ReEngine) (content filePath : String) : St :=
  let els : Elements := js_func_patterns.foldl
    (fun acc pat => (re pat content).foldl (regexInsert "function" content filePath) acc) []
  let els := (re js_class_pattern content).foldl (regexInsert "class" content filePath) els
  (els, [])

/-- `_regex_parse_java(content, file_path, lines)`. -/
def regex_parse_java (re : ReEngine) (content filePath : String) : St :=
  let els : Elements := (re java_method_pattern content).foldl (regexInsert "function" content filePath) []
  let els := (re java_class_pattern content).foldl (regexInsert "class" content filePath) els
  (els, [])

/-- `_parse_with_regex(content, file_path, language)`: dispatch to the
per-language regex strategy, or return the untouched empty accumulators for
any other language. -/
def parse_with_regex (re : ReEngine) (content filePath language : String) : St :=
  if language == "python" then regex_parse_python re content filePath
  else if language == "javascript" then regex_parse_javascript re content filePath
  else if language == "java" then regex_parse_java re content filePath
  else ([], [])

/-! ### Files, the per-file dispatch and the codebase pipeline -/

/-- One file of the materialized repository tree, with the outcomes of the
fallible operations the analyzer may perform on it: `readResult` models
`open(file_path, encoding=utf8, errors=ignore).read()` (an `.error` is a
raised exception), `tsTree` models `parser.parse(bytes(content))` for the
registered grammar, `bytes` the raw bytes (for the NUL-byte binary check)
and `size` the `stat().st_size`. -/
structure SrcFile where
  path : String
  readResult : Except String String
  tsTree : Except String Node
  bytes : List Nat
  size : Nat

/-- `_parse_with_treesitter(content, file_path, language)`: on a parse
error fall back to `_parse_with_regex`; otherwise dispatch on the language
(a language with a parser but no traversal routine leaves the empty
accumulators untouched). -/
def parse_with_treesitter (re : ReEngine) (tsTree : Except String Node)
    (content filePath language : String) : St :=
  match tsTree with
  | .error _ => parse_with_regex re content filePath language
  | .ok rootNode =>
    if language == "python" then parse_python_ast rootNode filePath
    else if language == "javascript" then parse_javascript_ast rootNode filePath
    else if language == "java" then parse_java_ast rootNode filePath
    else ([], [])

/-- `_analyze_file(file_path, language, repo_root)`: a failed read returns
the empty accumulators; otherwise use the tree-sitter strategy when a
parser is registered for the language (`language in self.parsers`), else
the regex strategy.  `parsers` is the runtime key set of `self.parsers`. -/
def analyze_file (parsers : List String) (re : ReEngine) (f : SrcFile) (language : String) : St :=
  match f.readResult with
  | .error _ => ([], [])
  | .ok content =>
    if parsers.contains language then
      parse_with_treesitter re f.tsTree content f.path language
    else
      parse_with_regex re content f.path language

/-- The extension table of `CodeAnalyzer._get_code_files`. -/
def analyzer_extensions : List (String × List String) :=
  [("python", [".py"]), ("jac", [".jac"]), ("javascript", [".js", ".jsx"]),
   ("java", [".java"]), ("cpp", [".cpp", ".cc", ".cxx", ".hpp", ".h"]),
   ("rust", [".rs"]), ("go", [".go"])]

/-- String suffix test, for `repo_path.rglob(f'*ext')`: the glob matches
exactly the files whose name ends with the extension. -/
def strEndsWith (s suffix : String) : Bool := suffix.data.isSuffixOf s.data

/-- `CodeAnalyzer._get_code_files(repo_path, language)`: for each extension
of the language, every repository file whose name ends with it — there is
no binary-file or size filter here. -/
def analyzer_get_code_files (repoFiles : List SrcFile) (language : String) : List SrcFile :=
  let langExtensions := ((analyzer_extensions.find? (fun p => p.1 == language)).map Prod.snd).getD []
  langExtensions.foldl (fun acc ext => acc ++ repoFiles.filter (fun f => strEndsWith f.path ext)) []

/-- The file sequence `analyze_codebase` feeds to `_analyze_file`: entry
points that exist in the repository first (in the given order), then the
code files whose repository-relative path is not an entry point. -/
def analyzed_files (repoFiles : List SrcFile) (language : String) (entryPoints : List String) : List SrcFile :=
  (entryPoints.filterMap (fun p => repoFiles.find? (fun f => f.path == p)))
    ++ (analyzer_get_code_files repoFiles language).filter (fun f => !(entryPoints.contains f.path))

/-- `elements.update(file_elements)`: dict update, key by key in the new
dict's insertion order. -/
def updateElements (m : Elements) (new : Elements) : Elements :=
  new.foldl (fun acc p => insertEl acc p.1 p.2) m

/-- The accumulation loops of `analyze_codebase`: for each file in order,
`elements.update(file_elements)` and `relationships.extend(file_relationships)`. -/
def processFiles (parsers : List String) (re : ReEngine) (language : String)
    (files : List SrcFile) : St :=
  files.foldl (fun acc f =>
    let r := analyze_file parsers re f language
    (updateElements acc.1 r.1, acc.2 ++ r.2)) ([], [])

/-- The `networkx.DiGraph` built by `analyze_codebase`: node ids (each
carrying its element's attributes, not repeated here) and edges labelled
with the relationship kind. -/
structure DiGraph where
  nodes : List String
  edges : List RelTriple
deriving Repr, DecidableEq

/-- `graph.add_node(v, **attrs)`: appends the node when absent (attribute
refresh on an existing node does not change the node list). -/
def addNode (g : DiGraph) (v : String) : DiGraph :=
  if g.nodes.contains v then g else { g with nodes := g.nodes ++ [v] }

/-- `graph.add_edge(u, v, relationship=r)`: silently adds missing endpoint
nodes, then appends the edge, or refreshes its label when the pair is
already an edge. -/
def addEdge (g : DiGraph) (u v r : String) : DiGraph :=
  let g1 := addNode (addNode g u) v
  if g1.edges.any (fun e => e.1 == u && e.2.1 == v) then
    { g1 with edges := g1.edges.map (fun e => if e.1 == u && e.2.1 == v then (u, v, r) else e) }
  else { g1 with edges := g1.edges ++ [(u, v, r)] }

/-- The graph-view construction of `analyze_codebase`: every element id as
a node, then every relationship as an edge. -/
def buildGraph (elements : Elements) (relationships : List RelTriple) : DiGraph :=
  let g := elements.foldl (fun g p => addNode g p.1) ⟨[], []⟩
  relationships.foldl (fun g r => addEdge g r.1 r.2.1 r.2.2) g

/-- The `CodeContextGraph` dataclass. -/
structure CodeContextGraph where
  elements : Elements
  relationships : List RelTriple
  graph : DiGraph

/-- `CodeAnalyzer.analyze_codebase(repo_path, language, entry_points)`. -/
def analyze_codebase (parsers : List String) (re : ReEngine) (repoFiles : List SrcFile)
    (language : String) (entryPoints : List String) : CodeContextGraph :=
  let st := processFiles parsers re language (analyzed_files repoFiles language entryPoints)
  { elements := st.1, relationships := st.2, graph := buildGraph st.1 st.2 }

/-! ### `query_relationships` -/

/-- One result record `{from, to, relationship}` of `query_relationships`. -/
structure QueryRecord where
  fromId : String
  toId : String
  relationship : String
deriving Repr, DecidableEq

def toQueryRecord (r : RelTriple) : QueryRecord :=
  { fromId := r.1, toId := r.2.1, relationship := r.2.2 }

/-- `CodeAnalyzer.query_relationships(ccg, query)`: the `calls` branch when
the lowercased query contains `"calls"`, otherwise the `inherits` branch
when it contains `"inherits"`, otherwise no results. -/
def query_relationships (ccg : CodeContextGraph) (query : String) : List QueryRecord :=
  if strContainsSub (strLower query) "calls" then
    (ccg.relationships.filter (fun r => r.2.2 == "calls")).map toQueryRecord
  else if strContainsSub (strLower query) "inherits" then
    (ccg.relationships.filter (fun r => r.2.2 == "inherits")).map toQueryRecord
  else []

/-! ### The language detector (`language_detector.py`) -/

/-- `LanguageDetector.EXTENSION_MAP`, in source order. -/
def EXTENSION_MAP : List (String × String) :=
  [(".py", "python"), (".jac", "jac"), (".js", "javascript"), (".jsx", "javascript"),
   (".ts", "typescript"), (".tsx", "typescript"), (".java", "java"), (".cpp", "cpp"),
   (".cc", "cpp"), (".cxx", "cpp"), (".c", "c"), (".h", "c"), (".hpp", "cpp"),
   (".rs", "rust"), (".go", "go"), (".rb", "ruby"), (".php", "php"),
   (".swift", "swift"), (".kt", "kotlin"), (".scala", "scala"), (".r", "r"),
   (".m", "matlab"), (".jl", "julia"), (".sh", "shell"), (".bash", "shell"),
   (".zsh", "shell"), (".fish", "shell"), (".ps1", "powershell"), (".bat", "batch"),
   (".cmd", "batch"), (".sql", "sql"), (".html", "html"), (".css", "css"),
   (".scss", "scss"), (".sass", "sass"), (".less", "less"), (".xml", "xml"),
   (".yaml", "yaml"), (".yml", "yaml"), (".json", "json"), (".toml", "toml"),
   (".ini", "ini"), (".cfg", "config"), (".conf", "config"),
   (".dockerfile", "dockerfile"), (".dockerignore", "dockerignore"),
   (".gitignore", "gitignore"), (".md", "markdown"), (".rst", "restructuredtext"),
   (".tex", "latex"), (".txt", "text")]

/-- `LanguageDetector.LANGUAGE_PATTERNS`, in source order: per language, the
ordered signature pattern list. -/
def LANGUAGE_PATTERNS : List (String × List String) :=
  [("python",
    ["^#!/usr/bin/env python", "^#!/usr/bin/python", "import\\s+\\w+",
     "from\\s+\\w+\\s+import", "def\\s+\\w+\\s*\\(", "class\\s+\\w+"]),
   ("jac",
    ["node\\s+\\w+", "walker\\s+\\w+", "edge\\s+\\w+", "graph\\s+\\w+",
     "can\\s+\\w+", "with\\s+entry"]),
   ("javascript",
    ["^#!/usr/bin/env node", "^#!/usr/bin/node", "function\\s+\\w+\\s*\\(",
     "const\\s+\\w+\\s*=", "let\\s+\\w+\\s*=", "var\\s+\\w+\\s*=", "=>\\s*\x7b",
     "require\\s*\\(", "import\\s+.*from"]),
   ("java",
    ["public\\s+class\\s+\\w+", "package\\s+\\w+", "import\\s+\\w+",
     "public\\s+static\\s+void\\s+main", "@Override", "@Component", "@Service"]),
   ("cpp",
    ["#include\\s*<.*>", "#include\\s*\".*\"", "using\\s+namespace\\s+\\w+",
     "class\\s+\\w+\\s*\x7b", "int\\s+main\\s*\\(", "std::"]),
   ("rust",
    ["use\\s+\\w+", "fn\\s+\\w+\\s*\\(", "struct\\s+\\w+", "impl\\s+\\w+",
     "let\\s+\\w+\\s*=", "match\\s+\\w+"]),
   ("go",
    ["package\\s+\\w+", "import\\s+\\(", "func\\s+\\w+\\s*\\(",
     "type\\s+\\w+\\s+struct", "interface\\s+\\w+", "var\\s+\\w+\\s*="])]

/-- The `re.search(pattern, content, re.MULTILINE | re.IGNORECASE)` oracle. -/
abbrev ReSearch := String → String → Bool

/-- `LanguageDetector._is_binary_file`: a NUL byte in the first 1 KB (a
failed byte read also counts as binary; the model reads the given bytes). -/
def is_binary_file (f : SrcFile) : Bool := (f.bytes.take 1024).contains 0

/-- The `exclude_dirs` set of `LanguageDetector._get_code_files`. -/
def exclude_dirs : List String :=
  [".git", "node_modules", "__pycache__", ".pytest_cache", "venv", "env",
   ".venv", ".env", "build", "dist", "target", ".cargo", ".idea", ".vscode",
   ".vs", "coverage", ".coverage", "htmlcov", ".tox", "site-packages",
   ".mypy_cache", ".ruff_cache"]

/-- The path's segments: models `pathlib.PurePath.parts` for relative
paths. -/
def pathParts (p : String) : List String :=
  (p.data.foldr (fun c acc =>
    if c == '/' then [] :: acc
    else match acc with
      | a :: rest => (c :: a) :: rest
      | [] => [[c]]) [[]]).map (fun l => ⟨l⟩)

/-- `LanguageDetector._get_code_files(repo_path)`: every repository file
except those under an excluded directory, binary files and files larger
than 10 MB. -/
def detector_get_code_files (repoFiles : List SrcFile) : List SrcFile :=
  repoFiles.filter (fun f =>
    !(exclude_dirs.any (fun d => (pathParts f.path).contains d))
    && !(is_binary_file f || decide (f.size > 10 * 1024 * 1024)))

/-- The inner loop of `_detect_file_language`: first language any of whose
patterns matches the content. -/
def firstPatternLanguage (research : ReSearch) (content : String) :
    List (String × List String) → Option String
  | [] => none
  | (language, patterns) :: rest =>
    if patterns.any (fun pat => research pat content) then some language
    else firstPatternLanguage research content rest

/-- `LanguageDetector._detect_file_language(file_path)`: the extension
table first (lowercased `Path.suffix`); on no match, read up to 1 KB of
content and try the content signatures; a failed read detects nothing. -/
def detect_file_language (research : ReSearch) (f : SrcFile) : Option String :=
  let extension := strLower (pathSuffix f.path)
  match EXTENSION_MAP.find? (fun p => p.1 == extension) with
  | some p => some p.2
  | none =>
    match f.readResult with
    | .error _ => none
    | .ok content => firstPatternLanguage research ⟨content.data.take 1024⟩ LANGUAGE_PATTERNS

/-- `max(values)` over the counts (all counts are naturals, so the
`0` seed of the fold is neutral). -/
def maxValues (l : List Nat) : Nat := l.foldl Nat.max 0

/-- `LanguageDetector._get_primary_language`: head of the file counts
sorted by count descending (`sorted(..., key=count, reverse=True)` is a
stable sort), `unknown` when no file was classified. -/
def get_primary_language (fileCounts : List (String × Nat)) : String :=
  if fileCounts.isEmpty then "unknown"
  else
    match fileCounts.mergeSort (fun a b => decide (b.2 ≤ a.2)) with
    | [] => "unknown"
    | p :: _ => p.1

/-- `LanguageDetector._calculate_confidence`: the count of the dominant
language over the total classified file count, `0` with no classified
files. -/
def calculate_confidence (fileCounts : List (String × Nat)) : ℚ :=
  if fileCounts.isEmpty then 0
  else
    let totalFiles := (fileCounts.map Prod.snd).sum
    if totalFiles == 0 then 0
    else (maxValues (fileCounts.map Prod.snd) : ℚ) / (totalFiles : ℚ)

/-! ### Concrete fixtures

Small concrete inputs used to evaluate the model at specific points
(counterexamples and witnesses). -/

/-- A tree-sitter identifier node with the given source text. -/
def idNode (nm : String) : Node := .node "identifier" nm 0 0 0 0 []

/-- The parse tree of a Python file holding `class A` with a method
`foo` (rows 0–2) and a top-level function `foo` (rows 3–4). -/
def c2_tree : Node :=
  .node "module" "" 0 0 5 0
    [.node "class_definition" "" 0 0 2 10
      [idNode "A",
       .node "block" "" 1 0 2 10
         [.node "function_definition" "" 1 2 2 10 [idNode "foo"]]],
     .node "function_definition" "" 3 0 4 10 [idNode "foo"]]

/-- The parse tree of a one-function Python file. -/
def bin_tree : Node :=
  .node "module" "" 0 0 1 0
    [.node "function_definition" "def foo(): pass" 0 0 0 15
      [.node "identifier" "foo" 0 4 0 7 []]]

/-- A file whose first bytes hold a NUL (a binary file by the detector's
test) but whose name ends in `.py`. -/
def bin_file : SrcFile :=
  { path := "bad.py", readResult := .ok "def foo(): pass", tsTree := .ok bin_tree,
    bytes := [0, 102, 111, 111], size := 15 }

/-- An ordinary small text file. -/
def good_file : SrcFile :=
  { path := "src/ok.py", readResult := .ok "x = 1", tsTree := .ok (.node "module" "" 0 0 0 5 []),
    bytes := [120, 32, 61, 32, 49], size := 5 }

/-- A file whose read raises. -/
def bad_read_file : SrcFile :=
  { path := "broken.py", readResult := .error "boom", tsTree := .error "never parsed",
    bytes := [1], size := 1 }

/-- A file with an uppercase `.PY` extension and no readable content. -/
def upper_py_file : SrcFile :=
  { path := "x/Main.PY", readResult := .error "unreadable", tsTree := .error "never parsed",
    bytes := [1], size := 1 }

/-- The trivial regex oracle: no pattern ever matches. -/
def noMatches : ReEngine := fun _ _ => []

/-- A CCG whose only relationship is an `inherits` fact. -/
def c5_ccg : CodeContextGraph :=
  { elements := [], relationships := [("a.py:B", "a.py:A", "inherits")], graph := ⟨[], []⟩ }

/-- A CCG with one `calls` and one `inherits` relationship. -/
def c9_ccg : CodeContextGraph :=
  { elements := [],
    relationships := [("f.py:a", "f.py:b", "calls"), ("f.py:B", "f.py:A", "inherits")],
    graph := ⟨[], []⟩ }

/-! ### Key-set lemmas for the element dict -/

theorem keysOf_insertEl (m : Elements) (k : String) (v : CodeElement) :
    keysOf (insertEl m k v) = if k ∈ keysOf m then keysOf m else keysOf m ++ [k] := by
  unfold insertEl keysOf
  by_cases h : k ∈ m.map Prod.fst
  · have hany : m.any (fun p => p.1 == k) = true := by
      rw [List.any_eq_true]
      obtain ⟨p, hp, hpk⟩ := List.mem_map.mp h
      exact ⟨p, hp, by simp [hpk]⟩
    simp only [hany, if_true, h, List.map_map]
    apply List.map_congr_left
    intro p _
    by_cases hp : p.1 = k <;> simp [hp]
  · have hany : m.any (fun p => p.1 == k) = false := by
      rw [List.any_eq_false]
      intro p hp hpk
      exact h (List.mem_map.mpr ⟨p, hp, by simpa using hpk⟩)
    simp [hany, h]

theorem mem_keysOf_insertEl_self (m : Elements) (k : String) (v : CodeElement) :
    k ∈ keysOf (insertEl m k v) := by
  rw [keysOf_insertEl]
  by_cases h : k ∈ keysOf m <;> simp [h]

theorem mem_keysOf_insertEl_of_mem {m : Elements} {x : String} (k : String) (v : CodeElement)
    (h : x ∈ keysOf m) : x ∈ keysOf (insertEl m k v) := by
  rw [keysOf_insertEl]
  by_cases hk : k ∈ keysOf m <;> simp [hk, h]

theorem mem_keysOf_insertEl_cases {m : Elements} {x k : String} {v : CodeElement}
    (h : x ∈ keysOf (insertEl m k v)) : x ∈ keysOf m ∨ x = k := by
  rw [keysOf_insertEl] at h
  by_cases hk : k ∈ keysOf m
  · simp [hk] at h
    exact Or.inl h
  · simp [hk] at h
    exact h

theorem mem_appendContains {rels : List RelTriple} {parent : Option String} {elementId : String}
    {r : RelTriple} (h : r ∈ appendContains rels parent elementId) :
    r ∈ rels ∨ ∃ p, parent = some p ∧ r = (p, elementId, "contains") := by
  unfold appendContains at h
  match parent with
  | none => exact Or.inl h
  | some p =>
    by_cases hp : p != ""
    · simp [hp] at h
      rcases h with h | h
      · exact Or.inl h
      · exact Or.inr ⟨p, rfl, h⟩
    · simp [hp] at h
      exact Or.inl h

/-! ### The traversal invariants

`stOk` is the endpoint invariant: every recorded relationship points at
keys of the element dict.  `pOk` says the parent id handed to a traversal
call is itself a key.  `keyPfx`/`allPfx` say every key carries the file
path before its first colon (used for the cross-file uniqueness facts). -/

def stOk (st : St) : Prop := ∀ r ∈ st.2, r.1 ∈ keysOf st.1 ∧ r.2.1 ∈ keysOf st.1

def pOk (parent : Option String) (st : St) : Prop :=
  ∀ s, parent = some s → s ∈ keysOf st.1

def keyPfx (filePath k : String) : Prop :=
  ∃ rest : List Char, k.data = filePath.data ++ ':' :: rest

def allPfx (filePath : String) (st : St) : Prop := ∀ k ∈ keysOf st.1, keyPfx filePath k

/-- What one traversal step guarantees from state `st` to state `st1`:
keys only grow, the endpoint invariant is preserved (assuming the parent
is a key), and the file-path key shape is preserved. -/
def stepFacts (filePath : String) (parent : Option String) (st st1 : St) : Prop :=
  (∀ k, k ∈ keysOf st.1 → k ∈ keysOf st1.1) ∧
  (stOk st → pOk parent st → stOk st1) ∧
  (allPfx filePath st → allPfx filePath st1)

/-- A traversal routine satisfies `stepFacts` at every call. -/
def travSpec (filePath : String) (f : Option String → St → St) : Prop :=
  ∀ parent st, stepFacts filePath parent st (f parent st)

theorem stepFacts_refl (filePath : String) (parent : Option String) (st : St) :
    stepFacts filePath parent st st :=
  ⟨fun _ h => h, fun h _ => h, fun h => h⟩

theorem pOk_mono {parent : Option String} {st st1 : St}
    (hmono : ∀ k, k ∈ keysOf st.1 → k ∈ keysOf st1.1) (h : pOk parent st) : pOk parent st1 :=
  fun s hs => hmono s (h s hs)

/-- Chain a step into a traversal call on the stepped state (same parent). -/
theorem stepFacts_comp {filePath : String} {g : Option String → St → St}
    (hg : travSpec filePath g) {parent : Option String} {st st1 : St}
    (h : stepFacts filePath parent st st1) :
    stepFacts filePath parent st (g parent st1) := by
  obtain ⟨g1, g2, g3⟩ := hg parent st1
  exact ⟨fun k hk => g1 k (h.1 k hk),
    fun hok hpok => g2 (h.2.1 hok hpok) (pOk_mono h.1 hpok),
    fun hp => g3 (h.2.2 hp)⟩

/-- Chain a step into a traversal call under a different parent, provided
that parent is a key of the stepped state. -/
theorem stepFacts_comp_via {filePath : String} {g : Option String → St → St}
    (hg : travSpec filePath g) {parent parent2 : Option String} {st st1 : St}
    (h : stepFacts filePath parent st st1) (hp2 : pOk parent2 st1) :
    stepFacts filePath parent st (g parent2 st1) := by
  obtain ⟨g1, g2, g3⟩ := hg parent2 st1
  exact ⟨fun k hk => g1 k (h.1 k hk),
    fun hok hpok => g2 (h.2.1 hok hpok) hp2,
    fun hp => g3 (h.2.2 hp)⟩

theorem keyPfx_plain (filePath name : String) : keyPfx filePath (filePath ++ ":" ++ name) := by
  refine ⟨name.data, ?_⟩
  simp [String.data_append]

theorem keyPfx_import (filePath moduleName : String) :
    keyPfx filePath (filePath ++ ":import:" ++ moduleName) := by
  refine ⟨("import:" ++ moduleName).data, ?_⟩
  simp [String.data_append]

/-- The element-and-relationship insertion step of a declaration branch. -/
theorem stepFacts_insert_rel (filePath name : String) (el : CodeElement)
    (parent : Option String) (st : St) :
    stepFacts filePath parent st
      (insertEl st.1 (filePath ++ ":" ++ name) el,
       appendContains st.2 parent (filePath ++ ":" ++ name)) := by
  refine ⟨fun k hk => mem_keysOf_insertEl_of_mem _ _ hk, ?_, ?_⟩
  · intro hok hpok r hr
    rcases mem_appendContains hr with h | ⟨p, hp, rfl⟩
    · obtain ⟨h1, h2⟩ := hok r h
      exact ⟨mem_keysOf_insertEl_of_mem _ _ h1, mem_keysOf_insertEl_of_mem _ _ h2⟩
    · exact ⟨mem_keysOf_insertEl_of_mem _ _ (hpok p hp), mem_keysOf_insertEl_self _ _ _⟩
  · intro hp k hk
    rcases mem_keysOf_insertEl_cases hk with h | rfl
    · exact hp k h
    · exact keyPfx_plain filePath name

/-- The element insertion step of the import branch (no relationship). -/
theorem stepFacts_insert_import (filePath moduleName : String) (el : CodeElement)
    (parent : Option String) (st : St) :
    stepFacts filePath parent st
      (insertEl st.1 (filePath ++ ":import:" ++ moduleName) el, st.2) := by
  refine ⟨fun k hk => mem_keysOf_insertEl_of_mem _ _ hk, ?_, ?_⟩
  · intro hok hpok r hr
    obtain ⟨h1, h2⟩ := hok r hr
    exact ⟨mem_keysOf_insertEl_of_mem _ _ h1, mem_keysOf_insertEl_of_mem _ _ h2⟩
  · intro hp k hk
    rcases mem_keysOf_insertEl_cases hk with h | rfl
    · exact hp k h
    · exact keyPfx_import filePath moduleName

theorem pOk_insert_self (filePath name : String) (el : CodeElement) (st : St)
    (rels : List RelTriple) :
    pOk (some (filePath ++ ":" ++ name)) (insertEl st.1 (filePath ++ ":" ++ name) el, rels) := by
  intro s hs
  cases hs
  exact mem_keysOf_insertEl_self _ _ _

/-- The three Python traversal routines satisfy `stepFacts` at every call:
keys grow, relationship endpoints stay keys, keys keep the file path before
their first colon. -/
theorem py_spec (filePath : String) : ∀ n : Node,
    travSpec filePath (py_traverse_node filePath n) ∧
    travSpec filePath (py_traverse_list filePath n.children) := by
  intro n
  refine Node.rec
    (motive_1 := fun n => travSpec filePath (py_traverse_node filePath n) ∧
      travSpec filePath (py_traverse_list filePath n.children))
    (motive_2 := fun cs => travSpec filePath (py_traverse_list filePath cs) ∧
      travSpec filePath (py_traverse_blocks filePath cs))
    ?_ ?_ ?_ n
  · intro ntype text srow scol erow ecol children ih
    refine ⟨?_, by simpa [Node.children] using ih.1⟩
    intro parent st
    simp only [py_traverse_node]
    apply stepFacts_comp ih.1
    by_cases h1 : ntype == "function_definition"
    · simp only [h1, if_true]
      cases hgt : get_node_text children "identifier" with
      | none => exact stepFacts_refl _ _ _
      | some name =>
        by_cases hn : name != ""
        · simp only [hn, if_true]
          exact stepFacts_insert_rel filePath name _ parent st
        · simp only [hn, if_false]
          exact stepFacts_refl _ _ _
    · simp only [h1, if_false]
      by_cases h2 : ntype == "class_definition"
      · simp only [h2, if_true]
        cases hgt : get_node_text children "identifier" with
        | none => exact stepFacts_refl _ _ _
        | some name =>
          by_cases hn : name != ""
          · simp only [hn, if_true]
            exact stepFacts_comp_via ih.2 (stepFacts_insert_rel filePath name _ parent st)
              (pOk_insert_self filePath name _ st _)
          · simp only [hn, if_false]
            exact stepFacts_refl _ _ _
      · simp only [h2, if_false]
        by_cases h3 : ntype == "import_statement"
        · simp only [h3, if_true]
          cases hgt : get_import_name children with
          | none => exact stepFacts_refl _ _ _
          | some moduleName =>
            by_cases hn : moduleName != ""
            · simp only [hn, if_true]
              exact stepFacts_insert_import filePath moduleName _ parent st
            · simp only [hn, if_false]
              exact stepFacts_refl _ _ _
        · simp only [h3, if_false]
          exact stepFacts_refl _ _ _
  · refine ⟨?_, ?_⟩ <;> intro parent st
    · simp only [py_traverse_list]
      exact stepFacts_refl _ _ _
    · simp only [py_traverse_blocks]
      exact stepFacts_refl _ _ _
  · intro head tail ih1 ih2
    refine ⟨?_, ?_⟩
    · intro parent st
      simp only [py_traverse_list]
      exact stepFacts_comp ih2.1 (ih1.1 parent st)
    · obtain ⟨t, tx, a, b, c, d, gcs⟩ := head
      intro parent st
      simp only [py_traverse_blocks]
      apply stepFacts_comp ih2.2
      by_cases hb : t == "block"
      · simp only [hb, if_true]
        exact (by simpa [Node.children] using ih1.2 : travSpec filePath
          (py_traverse_list filePath gcs)) parent st
      · simp only [hb, if_false]
        exact stepFacts_refl _ _ _

theorem stOk_empty : stOk (([], []) : St) := fun r hr => absurd hr (List.not_mem_nil r)

theorem pOk_none (st : St) : pOk none st := fun s hs => by cases hs

theorem allPfx_empty (filePath : String) : allPfx filePath (([], []) : St) :=
  fun k hk => absurd hk (List.not_mem_nil k)

theorem parse_python_ast_stOk (rootNode : Node) (filePath : String) :
    stOk (parse_python_ast rootNode filePath) :=
  ((py_spec filePath rootNode).1 none ([], [])).2.1 stOk_empty (pOk_none _)

theorem parse_python_ast_keys (rootNode : Node) (filePath : String) :
    ∀ k ∈ keysOf (parse_python_ast rootNode filePath).1, keyPfx filePath k :=
  ((py_spec filePath rootNode).1 none ([], [])).2.2 (allPfx_empty filePath)

/-- The JavaScript traversal routines satisfy `stepFacts` at every call. -/
theorem js_spec (filePath : String) : ∀ n : Node,
    travSpec filePath (js_traverse_node filePath n) ∧
    travSpec filePath (js_traverse_list filePath n.children) := by
  intro n
  refine Node.rec
    (motive_1 := fun n => travSpec filePath (js_traverse_node filePath n) ∧
      travSpec filePath (js_traverse_list filePath n.children))
    (motive_2 := fun cs => travSpec filePath (js_traverse_list filePath cs))
    ?_ ?_ ?_ n
  · intro ntype text srow scol erow ecol children ih
    refine ⟨?_, by simpa [Node.children] using ih⟩
    intro parent st
    simp only [js_traverse_node]
    apply stepFacts_comp ih
    by_cases h1 : ntype == "function_declaration"
    · simp only [h1, if_true]
      cases hgt : get_node_text children "identifier" with
      | none => exact stepFacts_refl _ _ _
      | some name =>
        by_cases hn : name != ""
        · simp only [hn, if_true]
          exact stepFacts_insert_rel filePath name _ parent st
        · simp only [hn, if_false]
          exact stepFacts_refl _ _ _
    · simp only [h1, if_false]
      by_cases h2 : ntype == "class_declaration"
      · simp only [h2, if_true]
        cases hgt : get_node_text children "identifier" with
        | none => exact stepFacts_refl _ _ _
        | some name =>
          by_cases hn : name != ""
          · simp only [hn, if_true]
            exact stepFacts_insert_rel filePath name _ parent st
          · simp only [hn, if_false]
            exact stepFacts_refl _ _ _
      · simp only [h2, if_false]
        exact stepFacts_refl _ _ _
  · intro parent st
    simp only [js_traverse_list]
    exact stepFacts_refl _ _ _
  · intro head tail ih1 ih2
    intro parent st
    simp only [js_traverse_list]
    exact stepFacts_comp ih2 (ih1.1 parent st)

theorem parse_javascript_ast_stOk (rootNode : Node) (filePath : String) :
    stOk (parse_javascript_ast rootNode filePath) :=
  ((js_spec filePath rootNode).1 none ([], [])).2.1 stOk_empty (pOk_none _)

/-- The Java traversal routines satisfy `stepFacts` at every call. -/
theorem java_spec (filePath : String) : ∀ n : Node,
    travSpec filePath (java_traverse_node filePath n) ∧
    travSpec filePath (java_traverse_list filePath n.children) := by
  intro n
  refine Node.rec
    (motive_1 := fun n => travSpec filePath (java_traverse_node filePath n) ∧
      travSpec filePath (java_traverse_list filePath n.children))
    (motive_2 := fun cs => travSpec filePath (java_traverse_list filePath cs) ∧
      travSpec filePath (java_traverse_blocks filePath cs))
    ?_ ?_ ?_ n
  · intro ntype text srow scol erow ecol children ih
    refine ⟨?_, by simpa [Node.children] using ih.1⟩
    intro parent st
    simp only [java_traverse_node]
    apply stepFacts_comp ih.1
    by_cases h1 : ntype == "method_declaration"
    · simp only [h1, if_true]
      cases hgt : get_node_text children "identifier" with
      | none => exact stepFacts_refl _ _ _
      | some name =>
        by_cases hn : name != ""
        · simp only [hn, if_true]
          exact stepFacts_insert_rel filePath name _ parent st
        · simp only [hn, if_false]
          exact stepFacts_refl _ _ _
    · simp only [h1, if_false]
      by_cases h2 : ntype == "class_declaration"
      · simp only [h2, if_true]
        cases hgt : get_node_text children "identifier" with
        | none => exact stepFacts_refl _ _ _
        | some name =>
          by_cases hn : name != ""
          · simp only [hn, if_true]
            exact stepFacts_comp_via ih.2 (stepFacts_insert_rel filePath name _ parent st)
              (pOk_insert_self filePath name _ st _)
          · simp only [hn, if_false]
            exact stepFacts_refl _ _ _
      · simp only [h2, if_false]
        exact stepFacts_refl _ _ _
  · refine ⟨?_, ?_⟩ <;> intro parent st
    · simp only [java_traverse_list]
      exact stepFacts_refl _ _ _
    · simp only [java_traverse_blocks]
      exact stepFacts_refl _ _ _
  · intro head tail ih1 ih2
    refine ⟨?_, ?_⟩
    · intro parent st
      simp only [java_traverse_list]
      exact stepFacts_comp ih2.1 (ih1.1 parent st)
    · obtain ⟨t, tx, a, b, c, d, gcs⟩ := head
      intro parent st
      simp only [java_traverse_blocks]
      apply stepFacts_comp ih2.2
      by_cases hb : t == "class_body"
      · simp only [hb, if_true]
        exact (by simpa [Node.children] using ih1.2 : travSpec filePath
          (java_traverse_list filePath gcs)) parent st
      · simp only [hb, if_false]
        exact stepFacts_refl _ _ _

theorem parse_java_ast_stOk (rootNode : Node) (filePath : String) :
    stOk (parse_java_ast rootNode filePath) :=
  ((java_spec filePath rootNode).1 none ([], [])).2.1 stOk_empty (pOk_none _)

/-! ### Lifting the invariant through the strategies and the pipeline -/

/-- No regex strategy ever appends a relationship. -/
theorem parse_with_regex_rels (re : ReEngine) (content filePath language : String) :
    (parse_with_regex re content filePath language).2 = [] := by
  unfold parse_with_regex regex_parse_python regex_parse_javascript regex_parse_java
  by_cases h1 : language == "python" <;> by_cases h2 : language == "javascript" <;>
    by_cases h3 : language == "java" <;> simp [h1, h2, h3]

theorem stOk_of_rels_empty {st : St} (h : st.2 = []) : stOk st := by
  intro r hr
  rw [h] at hr
  exact absurd hr (List.not_mem_nil r)

theorem parse_with_treesitter_stOk (re : ReEngine) (tsTree : Except String Node)
    (content filePath language : String) :
    stOk (parse_with_treesitter re tsTree content filePath language) := by
  unfold parse_with_treesitter
  match tsTree with
  | .error e => exact stOk_of_rels_empty (parse_with_regex_rels re content filePath language)
  | .ok rootNode =>
    by_cases h1 : language == "python"
    · simpa [h1] using parse_python_ast_stOk rootNode filePath
    · by_cases h2 : language == "javascript"
      · simpa [h1, h2] using parse_javascript_ast_stOk rootNode filePath
      · by_cases h3 : language == "java"
        · simpa [h1, h2, h3] using parse_java_ast_stOk rootNode filePath
        · simpa [h1, h2, h3] using stOk_empty

theorem analyze_file_stOk (parsers : List String) (re : ReEngine) (f : SrcFile)
    (language : String) : stOk (analyze_file parsers re f language) := by
  unfold analyze_file
  match f.readResult with
  | .error e => exact stOk_empty
  | .ok content =>
    by_cases hp : language ∈ parsers
    · simpa [hp] using parse_with_treesitter_stOk re f.tsTree content f.path language
    · simpa [hp] using stOk_of_rels_empty (parse_with_regex_rels re content f.path language)

theorem mem_keysOf_updateElements_left {m : Elements} {x : String} (new : Elements)
    (h : x ∈ keysOf m) : x ∈ keysOf (updateElements m new) := by
  induction new generalizing m with
  | nil => exact h
  | cons p rest ih => exact ih (mem_keysOf_insertEl_of_mem p.1 p.2 h)

theorem mem_keysOf_updateElements_right {new : Elements} {x : String} (m : Elements)
    (h : x ∈ keysOf new) : x ∈ keysOf (updateElements m new) := by
  induction new generalizing m with
  | nil => exact absurd h (List.not_mem_nil x)
  | cons p rest ih =>
    rcases List.mem_cons.mp h with h0 | h0
    · subst h0
      exact mem_keysOf_updateElements_left rest (mem_keysOf_insertEl_self m p.1 p.2)
    · exact ih _ h0

/-- Every state the accumulation loop of `analyze_codebase` passes through
satisfies the endpoint invariant. -/
theorem processFiles_stOk (parsers : List String) (re : ReEngine) (language : String)
    (files : List SrcFile) : stOk (processFiles parsers re language files) := by
  unfold processFiles
  suffices h : ∀ acc : St, stOk acc → stOk (files.foldl (fun acc f =>
      let r := analyze_file parsers re f language
      (updateElements acc.1 r.1, acc.2 ++ r.2)) acc) from h ([], []) stOk_empty
  induction files with
  | nil => exact fun acc h => h
  | cons f rest ih =>
    intro acc hacc
    refine ih _ ?_
    intro r hr
    rcases List.mem_append.mp hr with h0 | h0
    · obtain ⟨h1, h2⟩ := hacc r h0
      exact ⟨mem_keysOf_updateElements_left _ h1, mem_keysOf_updateElements_left _ h2⟩
    · obtain ⟨h1, h2⟩ := analyze_file_stOk parsers re f language r h0
      exact ⟨mem_keysOf_updateElements_right _ h1, mem_keysOf_updateElements_right _ h2⟩

/-! ### Graph-view lemmas -/

theorem mem_nodes_addNode {g : DiGraph} {w : String} (v : String)
    (h : w ∈ (addNode g v).nodes) : w ∈ g.nodes ∨ w = v := by
  unfold addNode at h
  by_cases hv : v ∈ g.nodes
  · simp [hv] at h
    exact Or.inl h
  · simp [hv] at h
    exact h

theorem edges_addNode (g : DiGraph) (v : String) : (addNode g v).edges = g.edges := by
  unfold addNode
  by_cases hv : v ∈ g.nodes <;> simp [hv]

theorem mem_nodes_addEdge {g : DiGraph} {w : String} (u v r : String)
    (h : w ∈ (addEdge g u v r).nodes) : w ∈ g.nodes ∨ w = u ∨ w = v := by
  unfold addEdge at h
  by_cases he : (addNode (addNode g u) v).edges.any (fun e => e.1 == u && e.2.1 == v) <;>
    simp only [he, if_true, if_false] at h
  all_goals
    rcases mem_nodes_addNode v (by simpa using h) with h0 | h0
    · rcases mem_nodes_addNode u h0 with h1 | h1
      · exact Or.inl h1
      · exact Or.inr (Or.inl h1)
    · exact Or.inr (Or.inr h0)

theorem mem_edges_addEdge {g : DiGraph} {e : RelTriple} (u v r : String)
    (h : e ∈ (addEdge g u v r).edges) :
    (∃ e0 ∈ g.edges, e.1 = e0.1 ∧ e.2.1 = e0.2.1) ∨ (e.1 = u ∧ e.2.1 = v) := by
  unfold addEdge at h
  by_cases he : (addNode (addNode g u) v).edges.any (fun e => e.1 == u && e.2.1 == v) <;>
    simp only [he, if_true, if_false] at h
  · simp only [edges_addNode] at h
    rcases List.mem_map.mp h with ⟨e0, he0, heq⟩
    by_cases hm : e0.1 == u && e0.2.1 == v
    · simp [hm] at heq
      exact Or.inr ⟨by rw [← heq], by rw [← heq]⟩
    · simp [hm] at heq
      exact Or.inl ⟨e0, he0, by rw [← heq], by rw [← heq]⟩
  · simp only [edges_addNode] at h
    rcases List.mem_append.mp h with h0 | h0
    · exact Or.inl ⟨e, h0, rfl, rfl⟩
    · simp at h0
      exact Or.inr ⟨by rw [h0], by rw [h0]⟩

theorem buildGraph_start_nodes {els : Elements} {g0 : DiGraph} {v : String}
    (h : v ∈ (els.foldl (fun g p => addNode g p.1) g0).nodes) :
    v ∈ g0.nodes ∨ v ∈ keysOf els := by
  induction els generalizing g0 with
  | nil => exact Or.inl h
  | cons p rest ih =>
    rcases ih (by simpa using h) with h0 | h0
    · rcases mem_nodes_addNode p.1 h0 with h1 | h1
      · exact Or.inl h1
      · exact Or.inr (by simp [keysOf, h1])
    · exact Or.inr (by simp [keysOf] at h0 ⊢; exact Or.inr h0)

theorem buildGraph_start_edges (els : Elements) (g0 : DiGraph) :
    (els.foldl (fun g p => addNode g p.1) g0).edges = g0.edges := by
  induction els generalizing g0 with
  | nil => rfl
  | cons p rest ih => simpa [edges_addNode] using ih (addNode g0 p.1)

theorem buildGraph_fold_edges {rels : List RelTriple} {g0 : DiGraph} {e : RelTriple}
    (h : e ∈ (rels.foldl (fun g r => addEdge g r.1 r.2.1 r.2.2) g0).edges) :
    (∃ e0 ∈ g0.edges, e.1 = e0.1 ∧ e.2.1 = e0.2.1) ∨
    (∃ r ∈ rels, e.1 = r.1 ∧ e.2.1 = r.2.1) := by
  induction rels generalizing g0 with
  | nil => exact Or.inl ⟨e, h, rfl, rfl⟩
  | cons r rest ih =>
    rcases ih (by simpa using h) with ⟨e0, he0, h1, h2⟩ | ⟨r0, hr0, h1, h2⟩
    · rcases mem_edges_addEdge r.1 r.2.1 r.2.2 he0 with ⟨e1, he1, h3, h4⟩ | ⟨h3, h4⟩
      · exact Or.inl ⟨e1, he1, h1.trans h3, h2.trans h4⟩
      · exact Or.inr ⟨r, List.mem_cons_self r rest, h1.trans h3, h2.trans h4⟩
    · exact Or.inr ⟨r0, List.mem_cons_of_mem r hr0, h1, h2⟩

theorem buildGraph_fold_nodes {rels : List RelTriple} {g0 : DiGraph} {v : String}
    (h : v ∈ (rels.foldl (fun g r => addEdge g r.1 r.2.1 r.2.2) g0).nodes) :
    v ∈ g0.nodes ∨ ∃ r ∈ rels, v = r.1 ∨ v = r.2.1 := by
  induction rels generalizing g0 with
  | nil => exact Or.inl h
  | cons r rest ih =>
    rcases ih (by simpa using h) with h0 | ⟨r0, hr0, h1⟩
    · rcases mem_nodes_addEdge r.1 r.2.1 r.2.2 h0 with h1 | h1 | h1
      · exact Or.inl h1
      · exact Or.inr ⟨r, List.mem_cons_self r rest, Or.inl h1⟩
      · exact Or.inr ⟨r, List.mem_cons_self r rest, Or.inr h1⟩
    · exact Or.inr ⟨r0, List.mem_cons_of_mem r hr0, h1⟩

/-- In the graph view built for elements and relationships, every edge
arises from a relationship and every node from an element id or a
relationship endpoint. -/
theorem buildGraph_shape (els : Elements) (rels : List RelTriple) :
    (∀ e ∈ (buildGraph els rels).edges, ∃ r ∈ rels, e.1 = r.1 ∧ e.2.1 = r.2.1) ∧
    (∀ v ∈ (buildGraph els rels).nodes, v ∈ keysOf els ∨ ∃ r ∈ rels, v = r.1 ∨ v = r.2.1) := by
  constructor
  · intro e he
    rcases buildGraph_fold_edges he with ⟨e0, he0, _, _⟩ | h
    · rw [buildGraph_start_edges] at he0
      exact absurd he0 (List.not_mem_nil e0)
    · exact h
  · intro v hv
    rcases buildGraph_fold_nodes hv with h0 | h
    · rcases buildGraph_start_nodes h0 with h1 | h1
      · exact absurd h1 (List.not_mem_nil v)
      · exact Or.inl h1
    · exact Or.inr h

/-! ### Cross-file id uniqueness helpers -/

theorem colon_split_unique : ∀ (a : List Char), ':' ∉ a → ∀ (b : List Char), ':' ∉ b →
    ∀ (x y : List Char), a ++ ':' :: x = b ++ ':' :: y → a = b := by
  intro a
  induction a with
  | nil =>
    intro _ b hb x y h
    cases b with
    | nil => rfl
    | cons d bs =>
      simp only [List.nil_append, List.cons_append, List.cons.injEq] at h
      exact absurd (h.1 ▸ List.mem_cons_self d bs) (by simpa [← h.1] using hb)
  | cons c as ih =>
    intro ha b hb x y h
    cases b with
    | nil =>
      simp only [List.nil_append, List.cons_append, List.cons.injEq] at h
      exact absurd (h.1 ▸ List.mem_cons_self c as) (by simpa [h.1] using ha)
    | cons d bs =>
      simp only [List.cons_append, List.cons.injEq] at h
      have hha : ':' ∉ as := fun hm => ha (List.mem_cons_of_mem c hm)
      have hhb : ':' ∉ bs := fun hm => hb (List.mem_cons_of_mem d hm)
      rw [h.1, ih hha bs hhb x y h.2]

theorem keyPfx_unique {f1 f2 k : String} (h1c : ':' ∉ f1.data) (h2c : ':' ∉ f2.data)
    (h1 : keyPfx f1 k) (h2 : keyPfx f2 k) : f1 = f2 := by
  obtain ⟨r1, e1⟩ := h1
  obtain ⟨r2, e2⟩ := h2
  have hdata : f1.data = f2.data :=
    colon_split_unique f1.data h1c f2.data h2c r1 r2 (e1.symm.trans e2)
  cases f1
  cases f2
  exact congrArg String.mk hdata

/-! ### Sorting and maximum helpers for the language statistics -/

theorem foldl_max_init_le (l : List Nat) : ∀ n, n ≤ l.foldl Nat.max n := by
  induction l with
  | nil => exact fun n => le_refl n
  | cons c cs ih => exact fun n => le_trans (Nat.le_max_left n c) (ih _)

theorem le_foldl_max {l : List Nat} {a : Nat} (h : a ∈ l) : ∀ n, a ≤ l.foldl Nat.max n := by
  induction l with
  | nil => exact absurd h (List.not_mem_nil a)
  | cons b rest ih =>
    intro n
    rcases List.mem_cons.mp h with rfl | h0
    · exact le_trans (Nat.le_max_right n a) (foldl_max_init_le rest _)
    · exact ih h0 _

theorem foldl_max_le {l : List Nat} {b : Nat} (h : ∀ a ∈ l, a ≤ b) :
    ∀ n, n ≤ b → l.foldl Nat.max n ≤ b := by
  induction l with
  | nil => exact fun n hn => hn
  | cons c cs ih =>
    intro n hn
    exact ih (fun a ha => h a (List.mem_cons_of_mem c ha)) _
      (Nat.max_le.mpr ⟨hn, h c (List.mem_cons_self c cs)⟩)

theorem maxValues_eq_of_max {l : List Nat} {c : Nat} (hmem : c ∈ l) (hmax : ∀ a ∈ l, a ≤ c) :
    maxValues l = c :=
  le_antisymm (foldl_max_le hmax 0 (Nat.zero_le c)) (le_foldl_max hmem 0)

/-- The head of the descending stable sort of the file counts is one of the
counts and dominates all of them. -/
theorem primary_language_spec (fileCounts : List (String × Nat)) (h : fileCounts ≠ []) :
    ∃ c, (get_primary_language fileCounts, c) ∈ fileCounts ∧ ∀ q ∈ fileCounts, q.2 ≤ c := by
  have hne : fileCounts.isEmpty = false := by simpa [List.isEmpty_iff] using h
  have hperm := List.mergeSort_perm fileCounts (fun a b => decide (b.2 ≤ a.2))
  have hsorted := @List.sorted_mergeSort (String × Nat)
    (fun a b => decide (b.2 ≤ a.2))
    (fun a b c hab hbc => by
      simp only [decide_eq_true_eq] at hab hbc ⊢
      exact le_trans hbc hab)
    (fun a b => by
      simp only [Bool.or_eq_true, decide_eq_true_eq]
      exact Nat.le_total b.2 a.2)
    fileCounts
  rcases hms : fileCounts.mergeSort (fun a b => decide (b.2 ≤ a.2)) with _ | ⟨p, rest⟩
  · rw [hms] at hperm
    exact absurd hperm.symm.eq_nil h
  · rw [hms] at hperm hsorted
    have hgp : get_primary_language fileCounts = p.1 := by
      unfold get_primary_language
      rw [hne, hms]
      simp
    refine ⟨p.2, ?_, ?_⟩
    · rw [hgp]
      exact hperm.subset (List.mem_cons_self p rest)
    · intro q hq
      rcases List.mem_cons.mp (hperm.symm.subset hq) with rfl | h0
      · exact le_refl _
      · have := (List.pairwise_cons.mp hsorted).1 q h0
        simpa using this

/-! ### The claims -/

/-- C1: in every assembled Code Context Graph, every relationship in the
flat list and every edge of the derived graph view has both endpoints
present as keys of the element mapping at the time the graph view is
built, and every graph node is such a key.  In particular a relationship
whose endpoints were not keys could contribute neither edge nor node —
and the first conjunct shows no assembled graph ever holds such a
relationship. -/
theorem C1_graph_view_endpoints (parsers : List String) (re : ReEngine)
    (repoFiles : List SrcFile) (language : String) (entryPoints : List String) :
    (∀ r ∈ (analyze_codebase parsers re repoFiles language entryPoints).relationships,
       r.1 ∈ keysOf (analyze_codebase parsers re repoFiles language entryPoints).elements ∧
       r.2.1 ∈ keysOf (analyze_codebase parsers re repoFiles language entryPoints).elements) ∧
    (∀ e ∈ (analyze_codebase parsers re repoFiles language entryPoints).graph.edges,
       e.1 ∈ keysOf (analyze_codebase parsers re repoFiles language entryPoints).elements ∧
       e.2.1 ∈ keysOf (analyze_codebase parsers re repoFiles language entryPoints).elements) ∧
    (∀ v ∈ (analyze_codebase parsers re repoFiles language entryPoints).graph.nodes,
       v ∈ keysOf (analyze_codebase parsers re repoFiles language entryPoints).elements) := by
  have hst := processFiles_stOk parsers re language (analyzed_files repoFiles language entryPoints)
  have hshape := buildGraph_shape
    (processFiles parsers re language (analyzed_files repoFiles language entryPoints)).1
    (processFiles parsers re language (analyzed_files repoFiles language entryPoints)).2
  refine ⟨hst, ?_, ?_⟩
  · intro e he
    obtain ⟨r, hr, h1, h2⟩ := hshape.1 e he
    obtain ⟨k1, k2⟩ := hst r hr
    exact ⟨h1 ▸ k1, h2 ▸ k2⟩
  · intro v hv
    rcases hshape.2 v hv with h0 | ⟨r, hr, h1 | h1⟩
    · exact h0
    · exact h1 ▸ (hst r hr).1
    · exact h1 ▸ (hst r hr).2

/-- C2 counterexample: processing the single file `a.py` whose tree holds
`class A` (line 1) with method `foo` (line 2) and a top-level function
`foo` (line 4) yields only two element ids — the method and the top-level
function, two differently-nested distinct elements, both get the id
`a.py:foo`, and the later discovery overwrites the earlier (the surviving
record is the line-4 parentless function), all without re-processing any
file. -/
theorem C2_counterexample :
    keysOf (parse_python_ast c2_tree "a.py").1 = ["a.py:A", "a.py:foo"] ∧
    (parse_python_ast c2_tree "a.py").2 = [("a.py:A", "a.py:foo", "contains")] ∧
    (∀ p ∈ (parse_python_ast c2_tree "a.py").1, p.1 = "a.py:foo" →
      p.2.line_start = 4 ∧ p.2.parent = none) :=
  ⟨by decide, by decide, by decide⟩

/-- C2 amended: ids are `{file_path}:{name}` (imports
`{file_path}:import:{module}`), so elements from two distinct files with
colon-free paths never collide; but two same-named elements of one file
(such as a class's method and a top-level function) do collide, the later
overwriting the earlier, without any file being re-processed. -/
theorem C2_amended_cross_file_unique (t1 t2 : Node) (f1 f2 : String)
    (h1 : ':' ∉ f1.data) (h2 : ':' ∉ f2.data) (hne : f1 ≠ f2) :
    ∀ k ∈ keysOf (parse_python_ast t1 f1).1, k ∉ keysOf (parse_python_ast t2 f2).1 :=
  fun k hk1 hk2 => hne (keyPfx_unique h1 h2 (parse_python_ast_keys t1 f1 k hk1)
    (parse_python_ast_keys t2 f2 k hk2))

/-- Witness for the amended C2 at two concrete files. -/
theorem C2_amended_witness :
    (':' ∉ ("a.py" : String).data) ∧ (':' ∉ ("b.py" : String).data) ∧
    ("a.py" : String) ≠ "b.py" ∧
    ∀ k ∈ keysOf (parse_python_ast c2_tree "a.py").1,
      k ∉ keysOf (parse_python_ast c2_tree "b.py").1 :=
  ⟨by decide, by decide, by decide,
   C2_amended_cross_file_unique c2_tree c2_tree "a.py" "b.py" (by decide) (by decide) (by decide)⟩

/-- C3 counterexample: a file whose first kilobyte holds a NUL byte is
binary by the detector's test, yet the analyzer's own `_get_code_files`
(extension match only) selects it, and `analyze_codebase` does feed it to
the structural parser — its parsed function shows up in the element
mapping. -/
theorem C3_counterexample :
    is_binary_file bin_file = true ∧
    analyzed_files [bin_file] "python" [] = [bin_file] ∧
    "bad.py:foo" ∈ keysOf (analyze_codebase ["python"] noMatches [bin_file] "python" []).elements :=
  ⟨by decide, rfl, by decide⟩

/-- C3 amended: the language detector's code-file crawl does exclude every
binary file (NUL byte in the first 1 KB), so no binary file enters
language detection; but the analyzer enumerates its files by extension
alone, so a binary file with a matching extension still reaches the
structural parser. -/
theorem C3_amended_detector_excludes (repoFiles : List SrcFile) (f : SrcFile)
    (h : f ∈ detector_get_code_files repoFiles) : is_binary_file f = false := by
  have h2 := (List.mem_filter.mp h).2
  simp only [Bool.and_eq_true, Bool.not_eq_true', Bool.or_eq_false_iff] at h2
  exact h2.2.1

/-- Witness for the amended C3 at a concrete non-binary file. -/
theorem C3_amended_witness :
    good_file ∈ detector_get_code_files [good_file] ∧ is_binary_file good_file = false := by
  have hmem : good_file ∈ detector_get_code_files [good_file] := by
    rw [show detector_get_code_files [good_file] = [good_file] from rfl]
    exact List.mem_singleton.mpr rfl
  exact ⟨hmem, C3_amended_detector_excludes [good_file] good_file hmem⟩

/-- C4: when no parser is registered for the language, or the grammar
parse raised, `_analyze_file` returns exactly the regex strategy's result
— the failure never propagates. -/
theorem C4_fallback_to_regex (parsers : List String) (re : ReEngine) (f : SrcFile)
    (language content : String) (hread : f.readResult = .ok content)
    (h : language ∉ parsers ∨ ∃ e, f.tsTree = .error e) :
    analyze_file parsers re f language = parse_with_regex re content f.path language := by
  unfold analyze_file
  rw [hread]
  rcases h with h | ⟨e, he⟩
  · simp [h]
  · by_cases hp : language ∈ parsers
    · simp [hp, parse_with_treesitter, he]
    · simp [hp]

/-- Witness for C4: a language with no registered parser falls back. -/
theorem C4_witness :
    good_file.readResult = .ok "x = 1" ∧
    analyze_file [] noMatches good_file "python" =
      parse_with_regex noMatches "x = 1" good_file.path "python" :=
  ⟨rfl, C4_fallback_to_regex [] noMatches good_file "python" "x = 1" rfl
    (Or.inl (by decide))⟩

/-- C5 counterexample: the query `"calls and inherits"` contains the
substring `inherits`, yet on a CCG whose only relationship is an
`inherits` fact the query returns nothing — not the `inherits`
relationships the claim promises — because the `calls` branch is tested
first. -/
theorem C5_counterexample :
    strContainsSub (strLower "calls and inherits") "inherits" = true ∧
    query_relationships c5_ccg "calls and inherits" = [] ∧
    (c5_ccg.relationships.filter (fun r => r.2.2 == "inherits")).map toQueryRecord =
      [{ fromId := "a.py:B", toId := "a.py:A", relationship := "inherits" }] :=
  ⟨by decide, by decide, by decide⟩

/-- C5 amended: a query containing `calls` (case-insensitively) returns
exactly the `calls` relationships as records in discovery order; a query
containing `inherits` but not `calls` returns exactly the `inherits`
relationships; a query containing neither returns nothing — the
`inherits` case applies only when `calls` is absent, the branches being
tested in that order. -/
theorem C5_query_filter (ccg : CodeContextGraph) (query : String) :
    (strContainsSub (strLower query) "calls" = true →
      query_relationships ccg query =
        (ccg.relationships.filter (fun r => r.2.2 == "calls")).map toQueryRecord) ∧
    (strContainsSub (strLower query) "calls" = false →
     strContainsSub (strLower query) "inherits" = true →
      query_relationships ccg query =
        (ccg.relationships.filter (fun r => r.2.2 == "inherits")).map toQueryRecord) ∧
    (strContainsSub (strLower query) "calls" = false →
     strContainsSub (strLower query) "inherits" = false →
      query_relationships ccg query = []) := by
  unfold query_relationships
  refine ⟨fun h1 => by rw [h1]; simp,
    fun h1 h2 => by rw [h1, h2]; simp,
    fun h1 h2 => by rw [h1, h2]; simp⟩

/-- C6: the reported primary language is an argmax of the per-language
file counts and the confidence equals the primary count over the total
classified count, with confidence 0 when nothing was classified. -/
theorem C6_primary_and_confidence (fileCounts : List (String × Nat)) :
    calculate_confidence [] = 0 ∧
    (fileCounts ≠ [] →
      ∃ c, (get_primary_language fileCounts, c) ∈ fileCounts ∧
        (∀ q ∈ fileCounts, q.2 ≤ c) ∧
        calculate_confidence fileCounts = (c : ℚ) / (((fileCounts.map Prod.snd).sum : Nat) : ℚ)) := by
  refine ⟨by simp [calculate_confidence], ?_⟩
  intro h
  obtain ⟨c, hmem, hmax⟩ := primary_language_spec fileCounts h
  have hmv : maxValues (fileCounts.map Prod.snd) = c :=
    maxValues_eq_of_max (List.mem_map.mpr ⟨_, hmem, rfl⟩)
      (by
        intro a ha
        obtain ⟨q, hq, rfl⟩ := List.mem_map.mp ha
        exact hmax q hq)
  refine ⟨c, hmem, hmax, ?_⟩
  unfold calculate_confidence
  have hne : fileCounts.isEmpty = false := by simpa [List.isEmpty_iff] using h
  by_cases h0 : (fileCounts.map Prod.snd).sum = 0
  · have hc0 : c = 0 := by
      have hcle : c ≤ (fileCounts.map Prod.snd).sum :=
        List.single_le_sum (fun x _ => Nat.zero_le x) _ (List.mem_map.mpr ⟨_, hmem, rfl⟩)
      omega
    simp [hne, h0, hc0]
  · simp [hne, h0, hmv]

/-- Witness for C6 at a concrete two-language count table. -/
theorem C6_witness :
    (([("python", 2), ("markdown", 1)] : List (String × Nat)) ≠ []) ∧
    (∃ c, (get_primary_language [("python", 2), ("markdown", 1)], c) ∈
        ([("python", 2), ("markdown", 1)] : List (String × Nat)) ∧
      (∀ q ∈ ([("python", 2), ("markdown", 1)] : List (String × Nat)), q.2 ≤ c) ∧
      calculate_confidence [("python", 2), ("markdown", 1)] =
        (c : ℚ) / (((([("python", 2), ("markdown", 1)] : List (String × Nat)).map Prod.snd).sum : Nat) : ℚ)) :=
  ⟨by decide, (C6_primary_and_confidence [("python", 2), ("markdown", 1)]).2 (by decide)⟩

/-- C7: a file whose (lowercased) path suffix is `.py` is classified
`python` whatever its content or readability — the extension table is
consulted first and short-circuits content inspection. -/
theorem C7_py_extension_wins (research : ReSearch) (f : SrcFile)
    (h : strLower (pathSuffix f.path) = ".py") :
    detect_file_language research f = some "python" := by
  simp only [detect_file_language, h]
  rfl

/-- Witness for C7: an unreadable file named `Main.PY` is `python`. -/
theorem C7_witness :
    strLower (pathSuffix upper_py_file.path) = ".py" ∧
    detect_file_language (fun _ _ => false) upper_py_file = some "python" :=
  ⟨by decide, C7_py_extension_wins (fun _ _ => false) upper_py_file (by decide)⟩

/-- C8: a file whose read raises contributes zero elements and zero
relationships, and the whole run over the other files is unchanged by its
presence. -/
theorem C8_single_file_error_isolated (parsers : List String) (re : ReEngine)
    (language : String) (pre post : List SrcFile) (f : SrcFile) (e : String)
    (h : f.readResult = .error e) :
    analyze_file parsers re f language = ([], []) ∧
    processFiles parsers re language (pre ++ f :: post) =
      processFiles parsers re language (pre ++ post) := by
  have hf : analyze_file parsers re f language = ([], []) := by
    unfold analyze_file
    rw [h]
  refine ⟨hf, ?_⟩
  unfold processFiles
  rw [List.foldl_append, List.foldl_append, List.foldl_cons]
  simp [hf, updateElements]

/-- Witness for C8: a run over a good and a broken file equals the run
over the good file alone. -/
theorem C8_witness :
    bad_read_file.readResult = .error "boom" ∧
    analyze_file ["python"] noMatches bad_read_file "python" = ([], []) ∧
    processFiles ["python"] noMatches "python" ([good_file] ++ bad_read_file :: []) =
      processFiles ["python"] noMatches "python" ([good_file] ++ []) := by
  have h := C8_single_file_error_isolated ["python"] noMatches "python" [good_file] []
    bad_read_file "boom" rfl
  exact ⟨rfl, h.1, h.2⟩

/-- C9: when a query contains both `calls` and `inherits`
(case-insensitively), only the `calls` branch answers: the result is
exactly the `calls` relationships and every returned record has kind
`calls`. -/
theorem C9_calls_branch_precedence (ccg : CodeContextGraph) (query : String)
    (h1 : strContainsSub (strLower query) "calls" = true)
    (h2 : strContainsSub (strLower query) "inherits" = true) :
    query_relationships ccg query =
      (ccg.relationships.filter (fun r => r.2.2 == "calls")).map toQueryRecord ∧
    ∀ qr ∈ query_relationships ccg query, qr.relationship = "calls" := by
  have hq : query_relationships ccg query =
      (ccg.relationships.filter (fun r => r.2.2 == "calls")).map toQueryRecord := by
    unfold query_relationships
    rw [h1]
    simp
  refine ⟨hq, ?_⟩
  rw [hq]
  intro qr hqr
  obtain ⟨r, hr, rfl⟩ := List.mem_map.mp hqr
  have := (List.mem_filter.mp hr).2
  simpa [toQueryRecord] using this

/-- Witness for C9 at a CCG holding one `calls` and one `inherits`
relationship. -/
theorem C9_witness :
    query_relationships c9_ccg "show calls and inherits" =
      (c9_ccg.relationships.filter (fun r => r.2.2 == "calls")).map toQueryRecord ∧
    ∀ qr ∈ query_relationships c9_ccg "show calls and inherits", qr.relationship = "calls" :=
  C9_calls_branch_precedence c9_ccg "show calls and inherits" (by decide) (by decide)

/-- C10: the regex fallback for any language other than `python`,
`javascript` or `java` returns the empty element mapping and the empty
relationship list. -/
theorem C10_regex_other_language (re : ReEngine) (content filePath language : String)
    (h1 : language ≠ "python") (h2 : language ≠ "javascript") (h3 : language ≠ "java") :
    parse_with_regex re content filePath language = ([], []) := by
  simp [parse_with_regex, h1, h2, h3]

/-- Witness for C10: Go content through the fallback contributes
nothing. -/
theorem C10_witness :
    parse_with_regex noMatches "package main" "m.go" "go" = ([], []) :=
  C10_regex_other_language noMatches "package main" "m.go" "go"
    (by decide) (by decide) (by decide)
